import Mathlib

/-!
Verification of the filename-parsing heuristic and deck-generation loop of
`enhanced_art_to_anki.py` (repository `Art_to_Anki`).

The Python code is embedded shallowly: strings are handled at the
character-list level so that the splitting, joining and normalisation steps of
`parse_filename` are explicit structural recursions.  `parse_filename` and
`generate_anki_deck` keep their source names.  Python `str.split(sep)`,
`str.join`, `str.strip`, `re.sub` of the concrete patterns used, and
`os.path.splitext` are each modelled by a dedicated definition below.
Python whitespace handling (`str.strip`, the regex class backslash-s) is
modelled over the ASCII whitespace characters; non-ASCII whitespace does not
occur in the filenames this tool is pointed at.  Likewise character lowering
models the ASCII behaviour of `str.lower`.
-/

set_option autoImplicit false

namespace ArtToAnki

/-- ASCII whitespace, as stripped by Python `str.strip()` and matched by the
regex class backslash-s (space, tab, newline, carriage return, vertical tab,
form feed). -/
def isPySpace (c : Char) : Bool :=
  c == ' ' || c == '\t' || c == '\n' || c == '\r' || c == '\x0b' || c == '\x0c'

/-- Python `name.split(c)` for a single-character separator: every occurrence
splits, empty pieces are kept, the empty string yields one empty piece. -/
def splitChar (c : Char) : List Char → List (List Char)
  | [] => [[]]
  | x :: xs =>
    match splitChar c xs with
    | [] => [[]]
    | g :: gs => if x = c then [] :: g :: gs else (x :: g) :: gs

/-- Python `c.join(pieces)` for a single-character separator. -/
def joinSep (c : Char) : List (List Char) → List Char
  | [] => []
  | [a] => a
  | a :: b :: rest => a ++ c :: joinSep c (b :: rest)

/-- Python `s.strip()`: drop ASCII whitespace from both ends. -/
def pyStrip (l : List Char) : List Char :=
  ((l.dropWhile isPySpace).reverse.dropWhile isPySpace).reverse

/-- Python `re.sub(backslash-s+, single space, s)`: every maximal run of
whitespace becomes one space. -/
def collapseWs : List Char → List Char
  | [] => []
  | [c] => [if isPySpace c then ' ' else c]
  | c₁ :: c₂ :: rest =>
    if isPySpace c₁ && isPySpace c₂ then collapseWs (c₂ :: rest)
    else (if isPySpace c₁ then ' ' else c₁) :: collapseWs (c₂ :: rest)

/-- The output normalisation applied to both fields in `parse_filename`:
`replace underscore by space`, then `strip()`, then collapse whitespace runs. -/
def cleanF (l : List Char) : List Char :=
  collapseWs (pyStrip (l.map (fun c => if c = '_' then ' ' else c)))

/-- Helper for `os.path.splitext`: scanning left of a candidate dot, is there a
non-dot character before the start of the (slash-delimited) basename?  The
argument is the reversed prefix preceding the dot. -/
def hasStem : List Char → Bool
  | [] => false
  | c :: rest => if c = '/' then false else if c = '.' then hasStem rest else true

/-- Helper for `os.path.splitext`: given the reversed string, drop a trailing
extension (last dot onwards) provided the basename has a non-dot stem before
that dot; `none` when no extension is split off. -/
def dropExtRev : List Char → Option (List Char)
  | [] => none
  | c :: rest =>
    if c = '/' then none
    else if c = '.' then (if hasStem rest then some rest else none)
    else dropExtRev rest

/-- `os.path.splitext(s)[0]`: the string with its extension removed, where the
extension starts at the last dot provided the basename does not consist solely
of leading dots up to it. -/
def splitextRoot (l : List Char) : List Char :=
  match dropExtRev l.reverse with
  | some r => r.reverse
  | none => l

/-- Python `re.sub(suffix-anchored pattern, empty, s)` for a literal suffix:
remove the suffix when present, otherwise leave the string unchanged. -/
def removeSuffix (suf l : List Char) : List Char :=
  if suf.isSuffixOf l then l.take (l.length - suf.length) else l

/-- Lines 20-24 of the source: strip the extension, then a trailing
double-dash-S marker, then a trailing dash-S marker. -/
def nameCore (l : List Char) : List Char :=
  removeSuffix ['-', 'S'] (removeSuffix ['-', '-', 'S'] (splitextRoot l))

/-- Lines 27-29 of the source: split on the primary separator, falling back to
the secondary separator when the primary split yields fewer than two pieces. -/
def partsFor (name : List Char) : List (List Char) :=
  let p := splitChar '-' name
  if p.length < 2 then splitChar '_' name else p

/-- The `artwork_indicators` list of the source, in order, duplicates kept. -/
def artwork_indicators : List String :=
  ["the", "a", "an", "portrait", "self", "untitled", "study", "landscape",
   "still", "life", "scene", "view", "garden", "bridge", "river", "mountain",
   "woman", "man", "child", "family", "christ", "madonna", "saint", "angel",
   "battle", "war", "peace", "death", "birth", "creation", "fall", "rise",
   "morning", "evening", "night", "day", "sunset", "sunrise", "winter",
   "summer", "spring", "autumn", "fall", "snow", "rain", "storm", "calm",
   "wild"]

/-- The indicator table at the character-list level. -/
def indicatorTable : List (List Char) := artwork_indicators.map String.data

/-- The `compound_artists` dict of the source, in insertion order (Python
dicts iterate in insertion order). -/
def compound_artists : List (String × Nat) :=
  [("Albert-Charles-Lebourg", 3),
   ("Albert-Marie-Lebourg", 3),
   ("Diego-Rodriguez-De-Silva-Y-Velazquez", 5),
   ("Diego-Velazquez", 2),
   ("Michelangelo-Merisi", 2),
   ("Caravaggio-Michelangelo-Merisi", 3)]

/-- The compound-artist table at the character-list level. -/
def compoundTable : List (List Char × Nat) :=
  compound_artists.map (fun e => (e.1.data, e.2))

/-- ASCII `str.lower()` of the first remaining segment. -/
def lowerL (l : List Char) : List Char := l.map Char.toLower

/-- Building the returned pair from artist segments and artwork segments:
space-join each side and normalise (lines 61-67 and 82-88 of the source). -/
def mkResult (ap aw : List (List Char)) : Option (List Char) × Option (List Char) :=
  (some (cleanF (joinSep ' ' ap)), some (cleanF (joinSep ' ' aw)))

/-- The compound-artist loop (lines 55-67): the first entry whose declared
number of leading segments dash-joins to the entry name, with at least one
segment left over, returns; a name-only match falls through to later entries. -/
def tryCompound (parts : List (List Char)) : List (List Char × Nat) →
    Option (Option (List Char) × Option (List Char))
  | [] => none
  | (nm, len) :: rest =>
    if joinSep '-' (parts.take len) = nm then
      if parts.drop len = [] then tryCompound parts rest
      else some (mkResult (parts.take len) (parts.drop len))
    else tryCompound parts rest

/-- One iteration of the trial-length loop (lines 70-88): the split at
`len` is accepted when segments remain and the first remaining segment is a
title indicator, or more than one segment remains, or the length is two. -/
def tryLength (parts : List (List Char)) (len : Nat) :
    Option (Option (List Char) × Option (List Char)) :=
  if len ≤ parts.length then
    match parts.drop len with
    | [] => none
    | w :: ws =>
      if lowerL w ∈ indicatorTable ∨ ws ≠ [] ∨ len = 2 then
        some (mkResult (parts.take len) (w :: ws))
      else none
  else none

/-- The trial-length loop over the list `[2, 3, 1]` of the source. -/
def tryLengths (parts : List (List Char)) : List Nat →
    Option (Option (List Char) × Option (List Char))
  | [] => none
  | len :: lens =>
    match tryLength parts len with
    | some r => some r
    | none => tryLengths parts lens

/-- The decision taken on the segment list (lines 31-100 of the source): too
few segments fail, then the compound-artist loop, then the trial-length loop,
then the two-segments-plus-rest fallback, then the terminal no-match return.
Absent fields model Python `None`. -/
def parseFromParts (parts : List (List Char)) :
    Option (List Char) × Option (List Char) :=
  if parts.length < 2 then (none, none)
  else
    match tryCompound parts compoundTable with
    | some r => r
    | none =>
      match tryLengths parts [2, 3, 1] with
      | some r => r
      | none =>
        if 3 ≤ parts.length then mkResult (parts.take 2) (parts.drop 2)
        else (none, none)

/-- The source's `parse_filename`, at the `String` level: strip extension and
trailing suffix markers, split, and decide. -/
def parse_filename (s : String) : Option String × Option String :=
  ((parseFromParts (partsFor (nameCore s.data))).1.map String.mk,
   (parseFromParts (partsFor (nameCore s.data))).2.map String.mk)

/-- Replace the dash separators of a compound-artist entry by spaces (the form
the spec says the artist field takes for compound matches). -/
def dashToSpace (s : String) : String :=
  ⟨s.data.map (fun c => if c = '-' then ' ' else c)⟩

/-! ### The deck-generation loop (`generate_anki_deck`, lines 138-196)

Directory listing and package serialisation are external; the model receives
the listing as a list of filenames and records the notes, media paths, counts
and logged failures that the loop produces. -/

/-- The `image_extensions` set of the source. -/
def image_extensions : List String := [".jpg", ".jpeg", ".png", ".gif", ".bmp"]

/-- `any(file.lower().endswith(ext) for ext in image_extensions)`. -/
def isImageFile (f : String) : Bool :=
  image_extensions.any (fun e => e.data.isSuffixOf (f.data.map Char.toLower))

/-- One flashcard note as built at lines 169-177: the image field, the artist
field, the artwork field and the tag list. -/
structure AnkiNote where
  imageField : String
  artistField : String
  artworkField : String
  tags : List String
  deriving DecidableEq, Repr

/-- The artist tag of a note: `art_` plus the artist with spaces replaced by
underscores and lowered. -/
def artistTag (artist : String) : String :=
  "art_" ++ ⟨(artist.data.map (fun c => if c = ' ' then '_' else c)).map Char.toLower⟩

/-- The note built for a successfully parsed filename. -/
def mkNote (filename artist artwork : String) : AnkiNote :=
  ⟨"<img src=\"" ++ filename ++ "\">", artist, artwork,
   [artistTag artist, "art_history"]⟩

/-- Python truthiness of an optional string: `None` and the empty string are
falsy; the guard at line 167 is `if artist and artwork`. -/
def pyTruthy : Option String → Bool
  | none => false
  | some s => !(s == "")

/-- Whether a filename produces a note: both returned fields truthy. -/
def noteOk (f : String) : Bool :=
  pyTruthy (parse_filename f).1 && pyTruthy (parse_filename f).2

/-- The mutable loop state of lines 160-183: accumulated notes, the two
counters, and the filenames logged as failed (in processing order). -/
structure DeckState where
  notes : List AnkiNote
  parsedCount : Nat
  failedCount : Nat
  failures : List String
  deriving DecidableEq, Repr

/-- The per-file loop of lines 164-183 over the image files, in order. -/
def processFiles : List String → DeckState
  | [] => ⟨[], 0, 0, []⟩
  | f :: rest =>
    let st := processFiles rest
    if noteOk f then
      ⟨mkNote f ((parse_filename f).1.getD "") ((parse_filename f).2.getD "") :: st.notes,
       st.parsedCount + 1, st.failedCount, st.failures⟩
    else
      ⟨st.notes, st.parsedCount, st.failedCount + 1, f :: st.failures⟩

/-- The package produced by `generate_anki_deck`: deck name, notes, bundled
media paths, and the two counts it reports (plus the logged failures). -/
structure DeckPackage where
  deckName : String
  notes : List AnkiNote
  mediaFiles : List String
  parsedCount : Nat
  failedCount : Nat
  failures : List String
  deriving DecidableEq, Repr

/-- The source's `generate_anki_deck` on a directory listing: filter the
listing to image files (lines 148-156), bundle each under the art folder, and
run the parsing loop. -/
def generate_anki_deck (artFolder : String) (listing : List String) : DeckPackage :=
  let imageFiles := listing.filter (fun f => isImageFile f)
  let mediaFiles := imageFiles.map (fun f => artFolder ++ "/" ++ f)
  let st := processFiles imageFiles
  ⟨"Art History Collection", st.notes, mediaFiles,
   st.parsedCount, st.failedCount, st.failures⟩

/-! ### Lemmas about splitting and joining -/

theorem splitChar_exists_cons (c : Char) (l : List Char) :
    ∃ g gs, splitChar c l = g :: gs := by
  induction l with
  | nil => exact ⟨[], [], rfl⟩
  | cons x xs ih =>
    obtain ⟨g, gs, h⟩ := ih
    by_cases hx : x = c
    · exact ⟨[], g :: gs, by simp [splitChar, h, hx]⟩
    · exact ⟨x :: g, gs, by simp [splitChar, h, hx]⟩

theorem not_mem_of_mem_splitChar (c : Char) (l : List Char) :
    ∀ p ∈ splitChar c l, c ∉ p := by
  induction l with
  | nil =>
    intro p hp
    simp only [splitChar, List.mem_singleton] at hp
    simp [hp]
  | cons x xs ih =>
    obtain ⟨g, gs, h⟩ := splitChar_exists_cons c xs
    intro p hp
    simp only [splitChar, h] at hp
    by_cases hx : x = c
    · rw [if_pos hx] at hp
      rcases List.mem_cons.mp hp with hpe | hpm
      · simp [hpe]
      · exact ih p (h ▸ hpm)
    · rw [if_neg hx] at hp
      rcases List.mem_cons.mp hp with hpe | hpm
      · subst hpe
        intro hcm
        rcases List.mem_cons.mp hcm with hce | hcg
        · exact hx hce.symm
        · exact ih g (h ▸ List.mem_cons_self g gs) hcg
      · exact ih p (h ▸ List.mem_cons_of_mem g hpm)

theorem mem_of_mem_splitChar (c : Char) (l : List Char) :
    ∀ p ∈ splitChar c l, ∀ x ∈ p, x ∈ l := by
  induction l with
  | nil =>
    intro p hp
    simp only [splitChar, List.mem_singleton] at hp
    simp [hp]
  | cons y ys ih =>
    obtain ⟨g, gs, h⟩ := splitChar_exists_cons c ys
    intro p hp x hx
    simp only [splitChar, h] at hp
    by_cases hy : y = c
    · rw [if_pos hy] at hp
      rcases List.mem_cons.mp hp with hpe | hpm
      · subst hpe; cases hx
      · exact List.mem_cons_of_mem y (ih p (h ▸ hpm) x hx)
    · rw [if_neg hy] at hp
      rcases List.mem_cons.mp hp with hpe | hpm
      · subst hpe
        rcases List.mem_cons.mp hx with hxe | hxg
        · exact hxe ▸ List.mem_cons_self y ys
        · exact List.mem_cons_of_mem y
            (ih g (h ▸ List.mem_cons_self g gs) x hxg)
      · exact List.mem_cons_of_mem y
          (ih p (h ▸ List.mem_cons_of_mem g hpm) x hx)

theorem splitChar_of_not_mem (c : Char) (l : List Char) (h : c ∉ l) :
    splitChar c l = [l] := by
  induction l with
  | nil => rfl
  | cons x xs ih =>
    have hx : ¬x = c := fun hc => h (hc ▸ List.mem_cons_self x xs)
    have hxs : c ∉ xs := fun hc => h (List.mem_cons_of_mem x hc)
    simp [splitChar, ih hxs, hx]

theorem splitChar_append (c : Char) (a t : List Char) (ha : c ∉ a) :
    splitChar c (a ++ c :: t) = a :: splitChar c t := by
  induction a with
  | nil =>
    obtain ⟨g, gs, h⟩ := splitChar_exists_cons c t
    simp [splitChar, h]
  | cons y ys ih =>
    have hy : ¬y = c := fun hc => ha (hc ▸ List.mem_cons_self y ys)
    have hys : c ∉ ys := fun hc => ha (List.mem_cons_of_mem y hc)
    simp [splitChar, ih hys, hy]

theorem splitChar_joinSep (c : Char) (ll : List (List Char)) (hne : ll ≠ [])
    (hc : ∀ p ∈ ll, c ∉ p) : splitChar c (joinSep c ll) = ll := by
  induction ll with
  | nil => exact absurd rfl hne
  | cons a rest ih =>
    cases rest with
    | nil => exact splitChar_of_not_mem c a (hc a (List.mem_cons_self a []))
    | cons b rest' =>
      have ha : c ∉ a := hc a (List.mem_cons_self a (b :: rest'))
      have hrest : ∀ p ∈ b :: rest', c ∉ p :=
        fun p hp => hc p (List.mem_cons_of_mem a hp)
      calc splitChar c (joinSep c (a :: b :: rest'))
          = splitChar c (a ++ c :: joinSep c (b :: rest')) := rfl
        _ = a :: splitChar c (joinSep c (b :: rest')) := splitChar_append c a _ ha
        _ = a :: b :: rest' := by rw [ih (List.cons_ne_nil b rest') hrest]

theorem two_le_length_splitChar (c : Char) (l : List Char) (h : c ∈ l) :
    2 ≤ (splitChar c l).length := by
  induction l with
  | nil => cases h
  | cons x xs ih =>
    obtain ⟨g, gs, hgs⟩ := splitChar_exists_cons c xs
    by_cases hx : x = c
    · simp [splitChar, hgs, hx]
    · have hmem : c ∈ xs := by
        rcases List.mem_cons.mp h with he | hm
        · exact absurd he.symm hx
        · exact hm
      have := ih hmem
      rw [hgs] at this
      simp only [List.length_cons] at this
      simp [splitChar, hgs, hx]
      omega

theorem not_mem_of_splitChar_short (c : Char) (l : List Char)
    (h : (splitChar c l).length < 2) : c ∉ l :=
  fun hmem => absurd (two_le_length_splitChar c l hmem) (by omega)

theorem partsFor_dash_free (n : List Char) :
    ∀ p ∈ partsFor n, ('-' : Char) ∉ p := by
  intro p hp
  unfold partsFor at hp
  by_cases hlen : (splitChar '-' n).length < 2
  · rw [if_pos hlen] at hp
    intro hdash
    exact not_mem_of_splitChar_short '-' n hlen
      (mem_of_mem_splitChar '_' n p hp '-' hdash)
  · rw [if_neg hlen] at hp
    exact not_mem_of_mem_splitChar '-' n p hp

theorem take_ne_nil_of_ne_nil {α : Type} (l : List α) (n : Nat)
    (hl : l ≠ []) (hn : n ≠ 0) : l.take n ≠ [] := by
  cases l with
  | nil => exact absurd rfl hl
  | cons a l' =>
    cases n with
    | zero => exact absurd rfl hn
    | succ m => simp

theorem take_eq_splitChar_of_joinSep {parts : List (List Char)} {L : Nat}
    {nm : List Char} (hDF : ∀ p ∈ parts, ('-' : Char) ∉ p)
    (hne : parts.take L ≠ []) (h : joinSep '-' (parts.take L) = nm) :
    parts.take L = splitChar '-' nm := by
  have hsj := splitChar_joinSep '-' (parts.take L) hne
    (fun p hp => hDF p (List.take_subset L parts hp))
  rw [h] at hsj
  exact hsj.symm

theorem compound_prefix_conflict {parts : List (List Char)}
    (hDF : ∀ p ∈ parts, ('-' : Char) ∉ p) (hpne : parts ≠ [])
    {nm nm' : List Char} {L L' : Nat} (hL : L ≠ 0) (hL' : L' ≠ 0)
    (h : joinSep '-' (parts.take L) = nm)
    (h' : joinSep '-' (parts.take L') = nm') :
    (splitChar '-' nm).take L' = (splitChar '-' nm').take L := by
  have e1 := take_eq_splitChar_of_joinSep hDF (take_ne_nil_of_ne_nil parts L hpne hL) h
  have e2 := take_eq_splitChar_of_joinSep hDF (take_ne_nil_of_ne_nil parts L' hpne hL') h'
  rw [← e1, ← e2, List.take_take, List.take_take, Nat.min_comm]

theorem tryCompound_some_shape (parts : List (List Char))
    (tbl : List (List Char × Nat)) (r : Option (List Char) × Option (List Char))
    (h : tryCompound parts tbl = some r) : ∃ a w, r = (some a, some w) := by
  induction tbl with
  | nil => simp [tryCompound] at h
  | cons e rest ih =>
    obtain ⟨nm, L⟩ := e
    simp only [tryCompound] at h
    by_cases h1 : joinSep '-' (parts.take L) = nm
    · rw [if_pos h1] at h
      by_cases h2 : parts.drop L = []
      · rw [if_pos h2] at h
        exact ih h
      · rw [if_neg h2] at h
        have hr := Option.some.inj h
        exact ⟨_, _, hr.symm⟩
    · rw [if_neg h1] at h
      exact ih h

/-- A compound-table guard cannot hold for two incompatible entries at once:
if the declared-length join for our entry equals its name, a second entry whose
segment prefixes disagree with ours cannot also have its guard hold. -/
theorem compound_guard_false {parts : List (List Char)}
    (hDF : ∀ p ∈ parts, ('-' : Char) ∉ p) (hpne : parts ≠ [])
    {nm nm' : List Char} {L L' : Nat} (hL : L ≠ 0) (hL' : L' ≠ 0)
    (hJoin : joinSep '-' (parts.take L) = nm)
    (hdiff : (splitChar '-' nm).take L' ≠ (splitChar '-' nm').take L) :
    ¬joinSep '-' (parts.take L') = nm' :=
  fun hg => hdiff (compound_prefix_conflict hDF hpne hL hL' hJoin hg)

/-- C1 (amended): for every filename whose segment list, at the declared
segment count L of a compound-artists entry, dash-joins to that entry with at
least one segment remaining, `parse_filename` returns as artist the entry with
its dash separators replaced by spaces.  (As stated the claim fails: the entry
with six segments is stored with declared length five and can never match, and
a match with no remaining segments falls through to the later heuristics.) -/
theorem parse_compound_artist (fn : String) (nm : String) (L : Nat)
    (hmem : (nm, L) ∈ compound_artists)
    (hJoin : joinSep '-' ((partsFor (nameCore fn.data)).take L) = nm.data)
    (hRem : (partsFor (nameCore fn.data)).drop L ≠ []) :
    (parse_filename fn).1 = some (dashToSpace nm) := by
  have hDF := partsFor_dash_free (nameCore fn.data)
  have hlen : L < (partsFor (nameCore fn.data)).length := by
    by_contra hle
    push_neg at hle
    exact hRem (List.eq_nil_of_length_eq_zero (by rw [List.length_drop]; omega))
  have hpne : partsFor (nameCore fn.data) ≠ [] := by
    intro h0
    rw [h0] at hlen
    simp at hlen
  simp only [compound_artists, List.mem_cons, Prod.mk.injEq,
    List.not_mem_nil, or_false] at hmem
  rcases hmem with ⟨rfl, rfl⟩ | ⟨rfl, rfl⟩ | ⟨rfl, rfl⟩ | ⟨rfl, rfl⟩ |
    ⟨rfl, rfl⟩ | ⟨rfl, rfl⟩
  · -- Albert-Charles-Lebourg, first entry
    have hseg := take_eq_splitChar_of_joinSep hDF
      (take_ne_nil_of_ne_nil _ 3 hpne (by decide)) hJoin
    simp only [parse_filename, parseFromParts]
    rw [if_neg (by omega : ¬(partsFor (nameCore fn.data)).length < 2)]
    simp only [compoundTable, compound_artists, List.map_cons, List.map_nil,
      tryCompound]
    rw [if_pos hJoin, if_neg hRem]
    simp only [mkResult]
    rw [hseg]
    decide
  · -- Albert-Marie-Lebourg, one predecessor
    have hseg := take_eq_splitChar_of_joinSep hDF
      (take_ne_nil_of_ne_nil _ 3 hpne (by decide)) hJoin
    simp only [parse_filename, parseFromParts]
    rw [if_neg (by omega : ¬(partsFor (nameCore fn.data)).length < 2)]
    simp only [compoundTable, compound_artists, List.map_cons, List.map_nil,
      tryCompound]
    rw [if_neg (compound_guard_false hDF hpne (by decide) (by decide) hJoin
      (by decide))]
    rw [if_pos hJoin, if_neg hRem]
    simp only [mkResult]
    rw [hseg]
    decide
  · -- Diego-Rodriguez-De-Silva-Y-Velazquez: declared length 5 but six
    -- segments, so the guard hypothesis is impossible
    exfalso
    have hseg := take_eq_splitChar_of_joinSep hDF
      (take_ne_nil_of_ne_nil _ 5 hpne (by decide)) hJoin
    have hlen6 : (splitChar '-'
        (("Diego-Rodriguez-De-Silva-Y-Velazquez" : String).data)).length = 6 := by
      decide
    have hcl := congrArg List.length hseg
    rw [List.length_take, hlen6] at hcl
    have h5 := Nat.min_le_left 5 (partsFor (nameCore fn.data)).length
    omega
  · -- Diego-Velazquez, three predecessors
    have hseg := take_eq_splitChar_of_joinSep hDF
      (take_ne_nil_of_ne_nil _ 2 hpne (by decide)) hJoin
    simp only [parse_filename, parseFromParts]
    rw [if_neg (by omega : ¬(partsFor (nameCore fn.data)).length < 2)]
    simp only [compoundTable, compound_artists, List.map_cons, List.map_nil,
      tryCompound]
    rw [if_neg (compound_guard_false hDF hpne (by decide) (by decide) hJoin
      (by decide))]
    rw [if_neg (compound_guard_false hDF hpne (by decide) (by decide) hJoin
      (by decide))]
    rw [if_neg (compound_guard_false hDF hpne (by decide) (by decide) hJoin
      (by decide))]
    rw [if_pos hJoin, if_neg hRem]
    simp only [mkResult]
    rw [hseg]
    decide
  · -- Michelangelo-Merisi, four predecessors
    have hseg := take_eq_splitChar_of_joinSep hDF
      (take_ne_nil_of_ne_nil _ 2 hpne (by decide)) hJoin
    simp only [parse_filename, parseFromParts]
    rw [if_neg (by omega : ¬(partsFor (nameCore fn.data)).length < 2)]
    simp only [compoundTable, compound_artists, List.map_cons, List.map_nil,
      tryCompound]
    rw [if_neg (compound_guard_false hDF hpne (by decide) (by decide) hJoin
      (by decide))]
    rw [if_neg (compound_guard_false hDF hpne (by decide) (by decide) hJoin
      (by decide))]
    rw [if_neg (compound_guard_false hDF hpne (by decide) (by decide) hJoin
      (by decide))]
    rw [if_neg (compound_guard_false hDF hpne (by decide) (by decide) hJoin
      (by decide))]
    rw [if_pos hJoin, if_neg hRem]
    simp only [mkResult]
    rw [hseg]
    decide
  · -- Caravaggio-Michelangelo-Merisi, five predecessors
    have hseg := take_eq_splitChar_of_joinSep hDF
      (take_ne_nil_of_ne_nil _ 3 hpne (by decide)) hJoin
    simp only [parse_filename, parseFromParts]
    rw [if_neg (by omega : ¬(partsFor (nameCore fn.data)).length < 2)]
    simp only [compoundTable, compound_artists, List.map_cons, List.map_nil,
      tryCompound]
    rw [if_neg (compound_guard_false hDF hpne (by decide) (by decide) hJoin
      (by decide))]
    rw [if_neg (compound_guard_false hDF hpne (by decide) (by decide) hJoin
      (by decide))]
    rw [if_neg (compound_guard_false hDF hpne (by decide) (by decide) hJoin
      (by decide))]
    rw [if_neg (compound_guard_false hDF hpne (by decide) (by decide) hJoin
      (by decide))]
    rw [if_neg (compound_guard_false hDF hpne (by decide) (by decide) hJoin
      (by decide))]
    rw [if_pos hJoin, if_neg hRem]
    simp only [mkResult]
    rw [hseg]
    decide

/-- C1 witness: the filename `Diego-Velazquez-Las-Meninas.jpg` matches the
table entry of declared length 2 with segments remaining, and the artist comes
back as the compound name with spaces. -/
theorem parse_compound_artist_witness :
    ("Diego-Velazquez", 2) ∈ compound_artists ∧
    (parse_filename "Diego-Velazquez-Las-Meninas.jpg").1
      = some (dashToSpace "Diego-Velazquez") :=
  ⟨by decide, parse_compound_artist "Diego-Velazquez-Las-Meninas.jpg"
    "Diego-Velazquez" 2 (by decide) (by decide) (by decide)⟩

/-- C1 counterexample: two filenames whose leading segments are prefix-equal
to a compound-artists entry but whose parsed artist is not that compound name
with separators replaced by spaces.  `Albert-Charles-Lebourg.jpg` matches its
entry with nothing left over and parses as artist `Albert Charles`; the
six-segment `Diego-Rodriguez-De-Silva-Y-Velazquez` entry has declared length
five, never matches, and the trial-length rule yields `Diego Rodriguez`. -/
theorem parse_compound_artist_counterexample :
    (("Albert-Charles-Lebourg", 3) ∈ compound_artists
      ∧ (splitChar '-' ("Albert-Charles-Lebourg" : String).data).isPrefixOf
          (partsFor (nameCore ("Albert-Charles-Lebourg.jpg" : String).data)) = true
      ∧ parse_filename "Albert-Charles-Lebourg.jpg"
          = (some "Albert Charles", some "Lebourg")
      ∧ (parse_filename "Albert-Charles-Lebourg.jpg").1
          ≠ some (dashToSpace "Albert-Charles-Lebourg"))
    ∧ (("Diego-Rodriguez-De-Silva-Y-Velazquez", 5) ∈ compound_artists
      ∧ (splitChar '-' ("Diego-Rodriguez-De-Silva-Y-Velazquez" : String).data).isPrefixOf
          (partsFor (nameCore
            ("Diego-Rodriguez-De-Silva-Y-Velazquez-Las-Meninas.jpg" : String).data)) = true
      ∧ (parse_filename "Diego-Rodriguez-De-Silva-Y-Velazquez-Las-Meninas.jpg").1
          = some "Diego Rodriguez"
      ∧ (parse_filename "Diego-Rodriguez-De-Silva-Y-Velazquez-Las-Meninas.jpg").1
          ≠ some (dashToSpace "Diego-Rodriguez-De-Silva-Y-Velazquez")) := by
  decide

theorem tryCompound_none_of_short (parts : List (List Char))
    (tbl : List (List Char × Nat)) (hshort : ∀ e ∈ tbl, parts.length ≤ e.2) :
    tryCompound parts tbl = none := by
  induction tbl with
  | nil => rfl
  | cons e rest ih =>
    obtain ⟨nm, L⟩ := e
    have hd : parts.drop L = [] :=
      List.drop_eq_nil_of_le (hshort (nm, L) (List.mem_cons_self _ _))
    have hrest := ih (fun e he => hshort e (List.mem_cons_of_mem _ he))
    simp [tryCompound, hd, hrest]

theorem parseFromParts_two (p₀ p₁ : List Char) :
    parseFromParts [p₀, p₁]
      = if lowerL p₁ ∈ indicatorTable then mkResult [p₀] [p₁] else (none, none) := by
  have hTC : tryCompound [p₀, p₁] compoundTable = none :=
    tryCompound_none_of_short _ _
      (by simp [compoundTable, compound_artists])
  by_cases hind : lowerL p₁ ∈ indicatorTable
  · rw [if_pos hind]
    simp [parseFromParts, hTC, tryLengths, tryLength, hind]
  · rw [if_neg hind]
    simp [parseFromParts, hTC, tryLengths, tryLength, hind]

/-- C2: when the name splits into exactly two segments and the result is not
absent, the artist is the first segment and the artwork the second (each
passed through the output normalisation every result receives). -/
theorem parse_two_segments (fn : String) (p₀ p₁ : List Char)
    (hp : partsFor (nameCore fn.data) = [p₀, p₁])
    (hne : parse_filename fn ≠ (none, none)) :
    parse_filename fn
      = (some (String.mk (cleanF p₀)), some (String.mk (cleanF p₁))) := by
  have h2 := parseFromParts_two p₀ p₁
  by_cases hind : lowerL p₁ ∈ indicatorTable
  · rw [if_pos hind] at h2
    simp only [parse_filename, hp, h2]
    rfl
  · rw [if_neg hind] at h2
    exact absurd (by simp only [parse_filename, hp, h2]; rfl) hne

/-- C2 witness: a two-segment filename whose second segment is a title
indicator parses to exactly that pair. -/
theorem parse_two_segments_witness :
    parse_filename "Monet-The.jpg"
      = (some (String.mk (cleanF ("Monet" : String).data)),
         some (String.mk (cleanF ("The" : String).data))) :=
  parse_two_segments "Monet-The.jpg" ("Monet" : String).data ("The" : String).data
    (by decide) (by decide)

/-- C3: a filename whose stripped name has fewer than two primary-separator
segments and fewer than two secondary-separator segments parses to both fields
absent; and the segment list in use is the secondary split exactly when the
primary split is too short. -/
theorem parse_separator_fallback (fn : String) :
    ((splitChar '-' (nameCore fn.data)).length < 2 →
      (splitChar '_' (nameCore fn.data)).length < 2 →
      parse_filename fn = (none, none))
    ∧ partsFor (nameCore fn.data)
        = (if (splitChar '-' (nameCore fn.data)).length < 2
           then splitChar '_' (nameCore fn.data)
           else splitChar '-' (nameCore fn.data)) := by
  constructor
  · intro h1 h2
    have hp : partsFor (nameCore fn.data) = splitChar '_' (nameCore fn.data) := by
      unfold partsFor
      rw [if_pos h1]
    simp only [parse_filename, hp, parseFromParts]
    rw [if_pos h2]
    rfl
  · rfl

/-- C3 witness: a name with no separators at all fails with both fields
absent. -/
theorem parse_separator_fallback_witness :
    parse_filename "x.jpg" = (none, none) :=
  (parse_separator_fallback "x.jpg").1 (by decide) (by decide)

theorem exists_three_of_le_length {α : Type} (l : List α) (h : 3 ≤ l.length) :
    ∃ a b c r, l = a :: b :: c :: r := by
  rcases l with _ | ⟨a, _ | ⟨b, _ | ⟨c, r⟩⟩⟩
  · simp at h
  · simp at h
  · simp at h
  · exact ⟨a, b, c, r, rfl⟩

theorem parseFromParts_three (p₀ p₁ p₂ : List Char) (rest : List (List Char))
    (hnc : tryCompound (p₀ :: p₁ :: p₂ :: rest) compoundTable = none) :
    parseFromParts (p₀ :: p₁ :: p₂ :: rest) = mkResult [p₀, p₁] (p₂ :: rest) := by
  unfold parseFromParts
  rw [hnc]
  simp [tryLengths, tryLength]

/-- C5: with at least three segments and no compound-artist entry accepting a
split, the parse takes the first two segments as the artist and the rest as
the artwork (the trial-length rule at length two, whose condition is then
satisfied, produces exactly this split, so the result is never absent). -/
theorem parse_fallback_first_two (fn : String)
    (h3 : 3 ≤ (partsFor (nameCore fn.data)).length)
    (hnc : tryCompound (partsFor (nameCore fn.data)) compoundTable = none) :
    parse_filename fn
      = (some (String.mk (cleanF (joinSep ' '
            ((partsFor (nameCore fn.data)).take 2)))),
         some (String.mk (cleanF (joinSep ' '
            ((partsFor (nameCore fn.data)).drop 2))))) := by
  obtain ⟨p₀, p₁, p₂, rest, hp⟩ := exists_three_of_le_length _ h3
  rw [hp] at hnc
  have h := parseFromParts_three p₀ p₁ p₂ rest hnc
  simp [parse_filename, hp, h, mkResult]

/-- C5 witness: a four-segment filename matching no compound entry parses to
first-two-segments artist and remaining-segments artwork. -/
theorem parse_fallback_first_two_witness :
    parse_filename "Edgar-Degas-Ballet-Class.jpg"
      = (some (String.mk (cleanF (joinSep ' '
            ((partsFor (nameCore ("Edgar-Degas-Ballet-Class.jpg" : String).data)).take 2)))),
         some (String.mk (cleanF (joinSep ' '
            ((partsFor (nameCore ("Edgar-Degas-Ballet-Class.jpg" : String).data)).drop 2))))) :=
  parse_fallback_first_two "Edgar-Degas-Ballet-Class.jpg" (by decide) (by decide)

/-- C8: with at least three segments `parse_filename` never returns both
fields absent: the compound loop only returns non-absent pairs, and otherwise
the trial length two is accepted because segments remain beyond it. -/
theorem parse_three_segments_not_none (fn : String)
    (h3 : 3 ≤ (partsFor (nameCore fn.data)).length) :
    parse_filename fn ≠ (none, none) := by
  obtain ⟨p₀, p₁, p₂, rest, hp⟩ := exists_three_of_le_length _ h3
  cases htc : tryCompound (partsFor (nameCore fn.data)) compoundTable with
  | some r =>
    obtain ⟨a, w, hr⟩ := tryCompound_some_shape _ _ _ htc
    have hpf : parseFromParts (partsFor (nameCore fn.data)) = r := by
      unfold parseFromParts
      rw [if_neg (by rw [hp]; simp), htc]
    simp [parse_filename, hpf, hr]
  | none =>
    rw [hp] at htc
    have h := parseFromParts_three p₀ p₁ p₂ rest htc
    simp [parse_filename, hp, h, mkResult]

/-- C8 witness: a three-segment filename parses to a non-absent pair. -/
theorem parse_three_segments_not_none_witness :
    parse_filename "A-B-C.jpg" ≠ (none, none) :=
  parse_three_segments_not_none "A-B-C.jpg" (by decide)

/-- C6 counterexample: the fixture filename does not parse with artist
`Vincent Van Gogh`; the trial-length-two rule accepts first, giving artist
`Vincent Van`. -/
theorem parse_gogh_counterexample :
    (parse_filename "Vincent-Van-Gogh-Starry-Night--S.jpg").1
      ≠ some "Vincent Van Gogh" := by
  decide

/-- C6 (amended): the fixture filename parses to artist `Vincent Van` and
artwork `Gogh Starry Night` (trial length two is accepted because more than
one segment remains after it). -/
theorem parse_gogh_actual :
    parse_filename "Vincent-Van-Gogh-Starry-Night--S.jpg"
      = (some "Vincent Van", some "Gogh Starry Night") := by
  decide

/-- C7: `parse_filename` is a pure function of its argument: two invocations
on the same string give the same pair. -/
theorem parse_filename_deterministic (s : String)
    (r₁ r₂ : Option String × Option String)
    (h₁ : parse_filename s = r₁) (h₂ : parse_filename s = r₂) : r₁ = r₂ := by
  rw [← h₁, ← h₂]

/-- C7 witness: two evaluations on a concrete filename agree. -/
theorem parse_filename_deterministic_witness :
    ((some "Claude Monet", some "Water Lilies") : Option String × Option String)
      = (some "Claude Monet", some "Water Lilies") :=
  parse_filename_deterministic "Claude-Monet-Water-Lilies.jpg"
    (some "Claude Monet", some "Water Lilies")
    (some "Claude Monet", some "Water Lilies") (by decide) (by decide)

theorem processFiles_spec (l : List String) :
    (processFiles l).parsedCount + (processFiles l).failedCount = l.length
    ∧ (processFiles l).failures = l.filter (fun f => !noteOk f)
    ∧ (processFiles l).failures.length = (processFiles l).failedCount := by
  induction l with
  | nil => exact ⟨rfl, rfl, rfl⟩
  | cons f rest ih =>
    obtain ⟨h1, h2, h3⟩ := ih
    by_cases hok : noteOk f
    · refine ⟨?_, ?_, ?_⟩
      · simp [processFiles, hok]
        omega
      · simp [processFiles, hok, List.filter_cons, h2]
      · simp [processFiles, hok, h3]
    · refine ⟨?_, ?_, ?_⟩
      · simp [processFiles, hok]
        omega
      · simp [processFiles, hok, List.filter_cons, h2]
      · simp [processFiles, hok, h3]

/-- C4: the parse is total (the embedding returns a pair for every string, no
exception path exists), and the generation loop is failure-tolerant: the
logged failures are exactly the image files whose parse result is not
accepted, each failure bumps the tally, and parsed plus failed always equals
the number of image files found in the listing. -/
theorem deck_counts (folder : String) (listing : List String) :
    (generate_anki_deck folder listing).parsedCount
        + (generate_anki_deck folder listing).failedCount
      = (listing.filter (fun f => isImageFile f)).length
    ∧ (generate_anki_deck folder listing).failures
      = (listing.filter (fun f => isImageFile f)).filter (fun f => !noteOk f)
    ∧ (generate_anki_deck folder listing).failures.length
      = (generate_anki_deck folder listing).failedCount := by
  have h := processFiles_spec (listing.filter (fun f => isImageFile f))
  simpa [generate_anki_deck] using h

/-- C9: a name ending in a trailing separator parses to a non-absent pair
whose artwork is the empty string, and the generation loop counts such a file
as a failure rather than creating a note (the guard requires both fields
truthy, and the empty string is falsy). -/
theorem parse_empty_artwork_counted_failed :
    parse_filename "Leonardo-Da-.jpg" = (some "Leonardo Da", some "")
    ∧ (generate_anki_deck "ART" ["Leonardo-Da-.jpg"]).parsedCount = 0
    ∧ (generate_anki_deck "ART" ["Leonardo-Da-.jpg"]).failedCount = 1
    ∧ (generate_anki_deck "ART" ["Leonardo-Da-.jpg"]).notes = []
    ∧ (generate_anki_deck "ART" ["Leonardo-Da-.jpg"]).failures
        = ["Leonardo-Da-.jpg"] := by
  decide

/-- C10: the bundled media paths are exactly the image files of the listing
(lower-cased name ending in a recognised extension) joined under the art
folder — including files whose parse fails — and a file with any other
extension is never among the processed image files. -/
theorem media_bundles_exactly_images (folder : String) (listing : List String) :
    (generate_anki_deck folder listing).mediaFiles
      = (listing.filter (fun f => isImageFile f)).map (fun f => folder ++ "/" ++ f)
    ∧ (∀ f, f ∈ listing → isImageFile f = true →
        (folder ++ "/" ++ f) ∈ (generate_anki_deck folder listing).mediaFiles)
    ∧ (∀ f, isImageFile f = false → f ∉ listing.filter (fun g => isImageFile g)) := by
  refine ⟨rfl, ?_, ?_⟩
  · intro f hf himg
    show (folder ++ "/" ++ f)
        ∈ (listing.filter (fun f => isImageFile f)).map (fun f => folder ++ "/" ++ f)
    exact List.mem_map_of_mem _ (List.mem_filter.mpr ⟨hf, himg⟩)
  · intro f himg hmem
    have hpf := (List.mem_filter.mp hmem).2
    rw [himg] at hpf
    exact Bool.false_ne_true hpf

/-- C10 witness: an image file that fails to parse is still bundled, in a
listing that also holds a non-image file. -/
theorem media_bundles_exactly_images_witness :
    ("ART" ++ "/" ++ "x.jpg")
      ∈ (generate_anki_deck "ART" ["x.jpg", "notes.txt"]).mediaFiles :=
  (media_bundles_exactly_images "ART" ["x.jpg", "notes.txt"]).2.1 "x.jpg"
    (by decide) (by decide)


end ArtToAnki
